import Mathlib

/-!
# Verification of the eRPC repository's specification

This file gives a shallow embedding of the parts of the eRPC repository
relevant to the frozen claims, and proves or refutes each claim.

Sources embedded directly:
* `apps/apps_common.h` — the `AppMemPool` helper, `ping_req_handler`.
* the nested-RPC client test — the byte transformations of
  `req_handler_cp`, `req_handler_pb`, `primary_cont_func`,
  `client_cont_func`, and the client request loop of `client_thread`.
* `requestvote.h` — the calls made by `requestvote_cont`.

The RPC engine itself (the `Rpc` class: slot window, message buffers,
hugepage allocator, dispatch) is not part of the provided sources; where a
claim depends on it, the engine is modelled from the specification and each
such definition's doc comment says so.
-/

namespace ERpcVerify

/-! ## AppMemPool (embedded from apps/apps_common.h, lines 53–80)

Pointers are modelled as natural numbers, with `0` playing the role of the
null pointer; `new T[n]` is modelled as handing out a fresh block of `n`
consecutive non-null addresses starting at `next_addr`. -/

/-- State of `AppMemPool<T>`: `num_to_alloc` starts at 1 and doubles on each
`extend_pool`; `pool` is the free vector (its last element is `pool.back()`);
`backing_ptr_vec` records the base of each backing array. `next_addr` models
the C++ allocator handing out fresh non-null addresses. -/
structure AppMemPool where
  num_to_alloc : Nat := 1
  backing_ptr_vec : List Nat := []
  pool : List Nat := []
  next_addr : Nat := 1
  deriving Repr, DecidableEq

/-- `AppMemPool::extend_pool`: allocate `num_to_alloc` fresh elements, push
each onto `pool`, record the backing array, and double `num_to_alloc`. -/
def AppMemPool.extend_pool (p : AppMemPool) : AppMemPool :=
  { num_to_alloc := p.num_to_alloc * 2
    backing_ptr_vec := p.backing_ptr_vec ++ [p.next_addr]
    pool := p.pool ++ (List.range p.num_to_alloc).map (fun i => p.next_addr + i)
    next_addr := p.next_addr + p.num_to_alloc }

/-- `AppMemPool::alloc`: if the pool is empty, extend it; return `pool.back()`
and pop it. -/
def AppMemPool.alloc (p : AppMemPool) : Nat × AppMemPool :=
  let q := if p.pool = [] then p.extend_pool else p
  (q.pool.getLastD 0, { q with pool := q.pool.dropLast })

/-- `AppMemPool::free`: `pool.push_back(t)`. -/
def AppMemPool.free (p : AppMemPool) (t : Nat) : AppMemPool :=
  { p with pool := p.pool ++ [t] }

/-- Well-formedness of a pool state: at least one element is allocated per
extension, addresses are non-null, and every free-list entry is non-null. -/
def AppMemPool.WF (p : AppMemPool) : Prop :=
  1 ≤ p.num_to_alloc ∧ 1 ≤ p.next_addr ∧ ∀ x ∈ p.pool, 1 ≤ x

/-- A freshly constructed `AppMemPool`. -/
def AppMemPool.init : AppMemPool := {}

lemma AppMemPool.extend_pool_pool (p : AppMemPool) :
    p.extend_pool.pool =
      p.pool ++ (List.range p.num_to_alloc).map (fun i => p.next_addr + i) := rfl

lemma AppMemPool.extend_pool_num (p : AppMemPool) :
    p.extend_pool.num_to_alloc = p.num_to_alloc * 2 := rfl

lemma AppMemPool.extend_pool_adds (p : AppMemPool) :
    p.extend_pool.pool.length = p.pool.length + p.num_to_alloc := by
  simp [extend_pool]

lemma AppMemPool.extend_pool_WF (p : AppMemPool) (h : p.WF) :
    p.extend_pool.WF := by
  obtain ⟨h1, h2, h3⟩ := h
  refine ⟨by simpa [extend_pool] using Nat.le_mul_of_pos_right 1 (by omega),
          by simp [extend_pool]; omega, ?_⟩
  intro x hx
  simp only [extend_pool_pool, List.mem_append, List.mem_map,
    List.mem_range] at hx
  rcases hx with hx | ⟨i, _, rfl⟩
  · exact h3 x hx
  · omega

lemma AppMemPool.extend_pool_ne_nil (p : AppMemPool) (h : 1 ≤ p.num_to_alloc) :
    p.extend_pool.pool ≠ [] := by
  intro hc
  have := congrArg List.length hc
  simp [extend_pool_adds] at this
  omega

/-- `alloc` on a well-formed pool returns a non-null pointer. -/
lemma AppMemPool.alloc_nonnull (p : AppMemPool) (h : p.WF) :
    1 ≤ (p.alloc).1 := by
  obtain ⟨h1, h2, h3⟩ := h
  unfold alloc
  by_cases he : p.pool = []
  · simp only [he, if_pos rfl]
    have hne := p.extend_pool_ne_nil h1
    have hwf := p.extend_pool_WF ⟨h1, h2, h3⟩
    have hmem : p.extend_pool.pool.getLastD 0 ∈ p.extend_pool.pool := by
      rw [List.getLastD_eq_getLast?, List.getLast?_eq_getLast _ hne]
      simp [List.getLast_mem]
    exact hwf.2.2 _ hmem
  · simp only [if_neg he]
    have hmem : p.pool.getLastD 0 ∈ p.pool := by
      rw [List.getLastD_eq_getLast?, List.getLast?_eq_getLast _ he]
      simp [List.getLast_mem]
    exact h3 _ hmem

/-- `free t` followed by `alloc` returns exactly `t` and restores the pool:
the free list is last-in-first-out. -/
lemma AppMemPool.free_then_alloc (p : AppMemPool) (t : Nat) :
    (p.free t).alloc = (t, p) := by
  unfold alloc free
  have hne : p.pool ++ [t] ≠ [] := by simp
  simp [hne]

/-- After `k` extensions of a fresh pool, `num_to_alloc` is `2 ^ k`. -/
lemma AppMemPool.iterate_extend_num (k : Nat) :
    (AppMemPool.extend_pool^[k] AppMemPool.init).num_to_alloc = 2 ^ k := by
  induction k with
  | zero => rfl
  | succ n ih =>
    rw [Function.iterate_succ_apply', extend_pool_num, ih]
    ring

/-- C10: for `AppMemPool<T>`, `alloc()` always returns a non-null pointer
(extending the pool on demand); `free(p)` followed immediately by `alloc()`
returns the same pointer `p` (last-in-first-out); each `extend_pool()` call
adds `num_to_alloc` elements and then doubles `num_to_alloc`, so the `k`-th
extension of a fresh pool adds `2 ^ (k - 1)` elements. -/
theorem appMemPool_alloc_free_extend (p : AppMemPool) (t k : Nat) (h : p.WF) :
    1 ≤ (p.alloc).1 ∧
    (p.free t).alloc = (t, p) ∧
    p.extend_pool.pool.length = p.pool.length + p.num_to_alloc ∧
    p.extend_pool.num_to_alloc = 2 * p.num_to_alloc ∧
    (AppMemPool.extend_pool^[k + 1] AppMemPool.init).pool.length =
      (AppMemPool.extend_pool^[k] AppMemPool.init).pool.length + 2 ^ k := by
  refine ⟨p.alloc_nonnull h, p.free_then_alloc t, p.extend_pool_adds, ?_, ?_⟩
  · rw [AppMemPool.extend_pool_num]; ring
  · rw [Function.iterate_succ_apply', AppMemPool.extend_pool_adds,
      AppMemPool.iterate_extend_num]

/-- Witness for C10 at the fresh pool, `t = 7`, `k = 0`. -/
theorem appMemPool_alloc_free_extend_witness :
    AppMemPool.init.WF ∧
    (1 ≤ (AppMemPool.init.alloc).1 ∧
     (AppMemPool.init.free 7).alloc = (7, AppMemPool.init) ∧
     AppMemPool.init.extend_pool.pool.length =
       AppMemPool.init.pool.length + AppMemPool.init.num_to_alloc ∧
     AppMemPool.init.extend_pool.num_to_alloc =
       2 * AppMemPool.init.num_to_alloc ∧
     (AppMemPool.extend_pool^[0 + 1] AppMemPool.init).pool.length =
       (AppMemPool.extend_pool^[0] AppMemPool.init).pool.length + 2 ^ 0) :=
  ⟨⟨by decide, by decide, by decide⟩,
    appMemPool_alloc_free_extend AppMemPool.init 7 0
      ⟨by decide, by decide, by decide⟩⟩

/-! ## Nested-RPC byte transformations (embedded from the nested-RPC test)

The request handlers and continuations operate on `uint8_t` payload bytes;
bytes are modelled as naturals with arithmetic reduced mod `2 ^ 8`. -/

/-- `kTestDataByte` from the nested-RPC test. -/
def kTestDataByte : Nat := 10

/-- One `uint8_t` increment `b + 1` with C++ unsigned wrap-around. -/
def byteAdd1 (b : Nat) : Nat := (b + 1) % 256

/-- `req_handler_cp`: the primary's request to the backup is the
client-to-primary request with every byte incremented. -/
def req_handler_cp_fwd (req : List Nat) : List Nat := req.map byteAdd1

/-- `req_handler_pb`: the backup's response is its received request with
every byte incremented. -/
def req_handler_pb_resp (req : List Nat) : List Nat := req.map byteAdd1

/-- `primary_cont_func`: the primary's response to the client is the backup's
response with every byte incremented. -/
def primary_cont_resp (resp : List Nat) : List Nat := resp.map byteAdd1

/-- The response bytes observed by `client_cont_func` in the nested-RPC
scenario: client request forwarded by the primary, echoed by the backup,
relayed back by the primary. -/
def nested_rpc_response (req : List Nat) : List Nat :=
  primary_cont_resp (req_handler_pb_resp (req_handler_cp_fwd req))

/-- C2 counterexample: for a 128-byte request whose bytes all equal
`v = 255`, the response bytes are `(255 + 3) % 256 = 2`, not `255 + 3`:
the three `uint8_t` increments wrap around. -/
theorem nested_rpc_response_overflow_cex :
    ¬ (∀ b ∈ nested_rpc_response (List.replicate 128 255), b = 255 + 3) := by
  intro h
  have h2 : (2 : Nat) ∈ nested_rpc_response (List.replicate 128 255) := by
    simp [nested_rpc_response, req_handler_cp_fwd, req_handler_pb_resp,
      primary_cont_resp, byteAdd1, List.map_replicate, List.mem_replicate]
  exact absurd (h 2 h2) (by decide)

/-- C2 (amended): in the nested-RPC scenario, the response the client's
continuation receives has the same length as the request, and every byte
equals `(v + 3) % 256` when every request byte equals the byte `v` — hence
equals `v + 3` whenever `v + 3 < 256`, as in the test where `v = 10`. -/
theorem nested_rpc_response_correct (v len : Nat) (_hv : v < 256) :
    (nested_rpc_response (List.replicate len v)).length = len ∧
    ∀ b ∈ nested_rpc_response (List.replicate len v), b = (v + 3) % 256 := by
  constructor
  · simp [nested_rpc_response, req_handler_cp_fwd, req_handler_pb_resp,
      primary_cont_resp]
  · intro b hb
    simp only [nested_rpc_response, req_handler_cp_fwd, req_handler_pb_resp,
      primary_cont_resp, List.map_replicate, List.mem_replicate, byteAdd1]
      at hb
    omega

/-- Witness for C2 (amended) at `v = kTestDataByte = 10`, length 128: the
response is 128 bytes of `13 = kTestDataByte + 3`, the value checked by
`client_cont_func`. -/
theorem nested_rpc_response_correct_witness :
    kTestDataByte < 256 ∧
    ((nested_rpc_response (List.replicate 128 kTestDataByte)).length = 128 ∧
     ∀ b ∈ nested_rpc_response (List.replicate 128 kTestDataByte),
       b = (kTestDataByte + 3) % 256) :=
  ⟨by decide, nested_rpc_response_correct kTestDataByte 128 (by decide)⟩

/-! ## Exactly-once continuation (C1) -/

/-- Modelled from the spec: the observable events of a session's request
window (the `Rpc` engine is not among the provided sources). `enq r` is an
`enqueue_request` call that returned success and was assigned request number
`r`; `complete r` is full receipt of `r`'s response, which fires `r`'s
continuation and returns the slot to `kIdle`; `reset` is `destroy_session`,
which fires a reset-error continuation for every outstanding request. -/
inductive ReqEvent
  | enq (r : Nat)
  | complete (r : Nat)
  | reset
  deriving Repr, DecidableEq

/-- Modelled from the spec: which event traces the engine can produce. `s`
is the list of outstanding request numbers and `used` the request numbers
ever assigned: request numbers are monotonic, so a number is never assigned
twice (`r ∉ used`), and a response completes only an outstanding request
(`r ∈ s`). -/
def ValidTrace : List Nat → List Nat → List ReqEvent → Prop
  | _, _, [] => True
  | s, used, ReqEvent.enq r :: es => r ∉ used ∧ ValidTrace (r :: s) (r :: used) es
  | s, used, ReqEvent.complete r :: es => r ∈ s ∧ ValidTrace (s.erase r) used es
  | _, used, ReqEvent.reset :: es => ValidTrace [] used es

/-- Outstanding request numbers after a trace. -/
def finalOut : List Nat → List ReqEvent → List Nat
  | s, [] => s
  | s, ReqEvent.enq q :: es => finalOut (q :: s) es
  | s, ReqEvent.complete q :: es => finalOut (s.erase q) es
  | _, ReqEvent.reset :: es => finalOut [] es

/-- Number of successful `enqueue_request` calls for request number `r`. -/
def enqCount (r : Nat) : List ReqEvent → Nat
  | [] => 0
  | ReqEvent.enq q :: es => (if q = r then 1 else 0) + enqCount r es
  | ReqEvent.complete _ :: es => enqCount r es
  | ReqEvent.reset :: es => enqCount r es

/-- Number of normal (response-received) continuation firings for `r`. -/
def normalFires (r : Nat) : List ReqEvent → Nat
  | [] => 0
  | ReqEvent.enq _ :: es => normalFires r es
  | ReqEvent.complete q :: es => (if q = r then 1 else 0) + normalFires r es
  | ReqEvent.reset :: es => normalFires r es

/-- Number of reset-error continuation firings for `r`: one per `reset`
event at which `r` was outstanding. -/
def resetFires (r : Nat) : List Nat → List ReqEvent → Nat
  | _, [] => 0
  | s, ReqEvent.enq q :: es => resetFires r (q :: s) es
  | s, ReqEvent.complete q :: es => resetFires r (s.erase q) es
  | s, ReqEvent.reset :: es => s.count r + resetFires r [] es

lemma resetFires_of_no_reset (r : Nat) (s : List Nat) (es : List ReqEvent)
    (h : ReqEvent.reset ∉ es) : resetFires r s es = 0 := by
  induction es generalizing s with
  | nil => rfl
  | cons e es ih =>
    cases e with
    | enq q => exact ih _ (fun hc => h (List.mem_cons_of_mem _ hc))
    | complete q => exact ih _ (fun hc => h (List.mem_cons_of_mem _ hc))
    | reset => exact absurd (List.mem_cons_self _ _) h

lemma count_cons_ite (r q : Nat) (s : List Nat) :
    (q :: s).count r = s.count r + (if q = r then 1 else 0) := by
  rw [List.count_cons]
  by_cases h : q = r
  · subst h; simp
  · simp [beq_iff_eq, h, Ne.symm h]

lemma count_erase_ite (r q : Nat) (s : List Nat) :
    (s.erase q).count r = s.count r - (if q = r then 1 else 0) := by
  rw [List.count_erase]
  by_cases h : q = r
  · subst h; simp
  · simp [beq_iff_eq, h, Ne.symm h]

/-- Continuation firings balance enqueues: along any valid trace, the
firings for `r` plus `r`'s multiplicity in the final outstanding list equal
`r`'s multiplicity in the starting list plus the number of times `r` was
enqueued. -/
lemma fires_balance (r : Nat) (s used : List Nat) (es : List ReqEvent)
    (hv : ValidTrace s used es) :
    normalFires r es + resetFires r s es + (finalOut s es).count r =
      s.count r + enqCount r es := by
  induction es generalizing s used with
  | nil => simp [normalFires, resetFires, finalOut, enqCount]
  | cons e es ih =>
    cases e with
    | enq q =>
      obtain ⟨_, hv'⟩ := hv
      have hih := ih (q :: s) (q :: used) hv'
      simp only [normalFires, resetFires, finalOut, enqCount]
      rw [count_cons_ite] at hih
      omega
    | complete q =>
      obtain ⟨hq, hv'⟩ := hv
      have hih := ih (s.erase q) used hv'
      have hpos : 1 ≤ s.count q := List.count_pos_iff.mpr hq
      have hcq : (if q = r then 1 ≤ s.count r else True) := by
        by_cases h : q = r
        · simp only [if_pos h]; exact h ▸ hpos
        · simp [h]
      simp only [normalFires, resetFires, finalOut, enqCount]
      rw [count_erase_ite] at hih
      by_cases h : q = r
      · simp only [if_pos h] at hih hcq ⊢
        omega
      · simp only [if_neg h] at hih ⊢
        omega
    | reset =>
      have hih := ih [] used hv
      simp only [normalFires, resetFires, finalOut, enqCount,
        List.count_nil] at hih ⊢
      omega

/-! ### The 33-request client loop (embedded from the nested-RPC test)

`client_thread` fills the window with `kSessionReqWindow` requests;
`client_cont_func` counts each response in `num_rpc_resps` and, while fewer
than `kTestNumReqs` requests have been sent, issues a replacement through
`client_request_helper`. -/

/-- Default session request window size (spec: window size = 8 by default;
the constant's definition is in the absent engine headers). -/
def kSessionReqWindow : Nat := 8

/-- `kTestNumReqs` from the nested-RPC test. -/
def kTestNumReqs : Nat := 33

/-- Client progress: requests sent, continuations fired, requests in flight. -/
structure ClientState where
  num_reqs_sent : Nat
  num_rpc_resps : Nat
  outstanding : Nat
  deriving Repr, DecidableEq

/-- One `client_cont_func` invocation: count the response; if fewer than
`kTestNumReqs` requests have been sent, `client_request_helper` sends one
more on the freed message buffer. -/
def client_cont_step (st : ClientState) : ClientState :=
  if st.num_reqs_sent < kTestNumReqs then
    ⟨st.num_reqs_sent + 1, st.num_rpc_resps + 1, st.outstanding - 1 + 1⟩
  else
    ⟨st.num_reqs_sent, st.num_rpc_resps + 1, st.outstanding - 1⟩

/-- Client state after `client_thread` fills the request window. -/
def client_start : ClientState := ⟨kSessionReqWindow, 0, kSessionReqWindow⟩

/-- Run the client: each step is one continuation firing (the engine fires
exactly one per outstanding request); stop when nothing is outstanding. -/
def client_run : Nat → ClientState → ClientState
  | 0, st => st
  | n + 1, st =>
    if st.outstanding = 0 then st else client_run n (client_cont_step st)

/-- C1: along every valid engine trace that runs to quiescence, a request
number enqueued once fires exactly one continuation — a normal one when no
`destroy_session` occurs, a reset-error one otherwise; consequently the
nested-RPC client, which issues `kTestNumReqs = 33` requests, observes its
continuation count reach exactly 33. -/
theorem exactly_once_continuation (es : List ReqEvent) (r : Nat)
    (hv : ValidTrace [] [] es) (hdone : finalOut [] es = [])
    (henq : enqCount r es = 1) :
    normalFires r es + resetFires r [] es = 1 ∧
    (ReqEvent.reset ∉ es → normalFires r es = 1) ∧
    (client_run kTestNumReqs client_start).num_rpc_resps = kTestNumReqs ∧
    (client_run kTestNumReqs client_start).outstanding = 0 := by
  have hb := fires_balance r [] [] es hv
  rw [hdone] at hb
  simp only [List.count_nil, henq] at hb
  refine ⟨by omega, ?_, by decide, by decide⟩
  intro hnr
  have := resetFires_of_no_reset r [] es hnr
  omega

/-- Witness for C1: the one-request trace enqueue-then-complete. -/
theorem exactly_once_continuation_witness :
    (ValidTrace [] [] [ReqEvent.enq 0, ReqEvent.complete 0] ∧
     finalOut [] [ReqEvent.enq 0, ReqEvent.complete 0] = [] ∧
     enqCount 0 [ReqEvent.enq 0, ReqEvent.complete 0] = 1) ∧
    (normalFires 0 [ReqEvent.enq 0, ReqEvent.complete 0] +
       resetFires 0 [] [ReqEvent.enq 0, ReqEvent.complete 0] = 1 ∧
     (ReqEvent.reset ∉ [ReqEvent.enq 0, ReqEvent.complete 0] →
       normalFires 0 [ReqEvent.enq 0, ReqEvent.complete 0] = 1) ∧
     (client_run kTestNumReqs client_start).num_rpc_resps = kTestNumReqs ∧
     (client_run kTestNumReqs client_start).outstanding = 0) :=
  ⟨⟨by simp [ValidTrace], rfl, rfl⟩,
   exactly_once_continuation [ReqEvent.enq 0, ReqEvent.complete 0] 0
     (by simp [ValidTrace]) rfl rfl⟩

/-! ## Message buffers and the hugepage-backed pool (C7, C8) -/

/-- Modelled from the spec: a `MsgBuffer` handle — the engine's message
buffer sources (`msg_buffer.h`) are absent. `buf` is the payload pointer
(`0` plays the role of `nullptr`), `max_data_size` the size given at
allocation, `data_size` the current data size. -/
structure MsgBuffer where
  buf : Nat
  max_data_size : Nat
  data_size : Nat
  deriving Repr, DecidableEq

/-- The null `MsgBuffer` an application observes on allocation failure. -/
def MsgBuffer.null : MsgBuffer := ⟨0, 0, 0⟩

/-- Modelled from the spec: the hugepage-allocator state behind
`alloc_msg_buffer` — the allocator sources (`util/huge_alloc.cc`) are
absent. `avail` is the free space of the pool, `can_extend` whether the
backing hugepage pool can still be extended, `next_addr` the next fresh
address (non-null once `1 ≤ next_addr`). -/
structure HugeAlloc where
  avail : Nat
  can_extend : Bool
  next_addr : Nat
  deriving Repr, DecidableEq

/-- Modelled from the spec (§4.2, §6): `alloc_msg_buffer(size)` serves the
buffer from the pool, extending the backing pool on demand, and fails with
`kNoMemory` — observable as a null `buf` — exactly when the pool has too
little space and cannot be extended. -/
def alloc_msg_buffer (a : HugeAlloc) (size : Nat) : MsgBuffer × HugeAlloc :=
  if size ≤ a.avail then
    (⟨a.next_addr, size, size⟩,
     ⟨a.avail - size, a.can_extend, a.next_addr + size + 1⟩)
  else if a.can_extend then
    (⟨a.next_addr, size, size⟩, ⟨0, a.can_extend, a.next_addr + size + 1⟩)
  else
    (MsgBuffer.null, a)

/-- Modelled from the spec (§4.2): `resize_msg_buffer(&MsgBuffer, new_size)`
adjusts the data size in place — no reallocation — when `new_size` does not
exceed the size given at allocation. -/
def resize_msg_buffer (m : MsgBuffer) (new_size : Nat) : MsgBuffer :=
  if new_size ≤ m.max_data_size then
    { m with data_size := new_size }
  else m

/-- C8: `alloc_msg_buffer(size)` returns a `MsgBuffer` whose `buf` is
non-null exactly when allocation succeeded; it fails — null `buf` — only
when the pool lacks space and the backing hugepage pool cannot be extended;
and a non-null result is fully valid (`buf`, `max_data_size` and
`data_size` all set), never partial. -/
theorem alloc_msg_buffer_spec (a : HugeAlloc) (size : Nat)
    (ha : 1 ≤ a.next_addr) :
    ((alloc_msg_buffer a size).1.buf ≠ 0 ↔
      (size ≤ a.avail ∨ a.can_extend = true)) ∧
    ((alloc_msg_buffer a size).1.buf = 0 →
      a.can_extend = false ∧ a.avail < size ∧
      (alloc_msg_buffer a size).1 = MsgBuffer.null) ∧
    ((alloc_msg_buffer a size).1.buf ≠ 0 →
      (alloc_msg_buffer a size).1.buf = a.next_addr ∧
      (alloc_msg_buffer a size).1.max_data_size = size ∧
      (alloc_msg_buffer a size).1.data_size = size) := by
  unfold alloc_msg_buffer
  split_ifs with h1 h2
  · refine ⟨⟨fun _ => Or.inl h1, fun _ => ?_⟩, fun h0 => ?_,
      fun _ => ⟨rfl, rfl, rfl⟩⟩
    · show a.next_addr ≠ 0
      omega
    · exact absurd (show a.next_addr = 0 from h0) (by omega)
  · refine ⟨⟨fun _ => Or.inr h2, fun _ => ?_⟩, fun h0 => ?_,
      fun _ => ⟨rfl, rfl, rfl⟩⟩
    · show a.next_addr ≠ 0
      omega
    · exact absurd (show a.next_addr = 0 from h0) (by omega)
  · refine ⟨⟨fun hc => absurd rfl hc, fun hor => ?_⟩, fun _ => ?_,
      fun hc => absurd rfl hc⟩
    · rcases hor with hle | hce
      · exact absurd hle h1
      · exact absurd hce (by simpa using h2)
    · exact ⟨by simpa using h2, by omega, rfl⟩

/-- Witness for C8 at a pool with one free byte that cannot extend. -/
theorem alloc_msg_buffer_spec_witness :
    1 ≤ (HugeAlloc.mk 1 false 4).next_addr ∧
    (((alloc_msg_buffer (HugeAlloc.mk 1 false 4) 1).1.buf ≠ 0 ↔
       (1 ≤ (HugeAlloc.mk 1 false 4).avail ∨
        (HugeAlloc.mk 1 false 4).can_extend = true)) ∧
     ((alloc_msg_buffer (HugeAlloc.mk 1 false 4) 1).1.buf = 0 →
       (HugeAlloc.mk 1 false 4).can_extend = false ∧
       (HugeAlloc.mk 1 false 4).avail < 1 ∧
       (alloc_msg_buffer (HugeAlloc.mk 1 false 4) 1).1 = MsgBuffer.null) ∧
     ((alloc_msg_buffer (HugeAlloc.mk 1 false 4) 1).1.buf ≠ 0 →
       (alloc_msg_buffer (HugeAlloc.mk 1 false 4) 1).1.buf =
         (HugeAlloc.mk 1 false 4).next_addr ∧
       (alloc_msg_buffer (HugeAlloc.mk 1 false 4) 1).1.max_data_size = 1 ∧
       (alloc_msg_buffer (HugeAlloc.mk 1 false 4) 1).1.data_size = 1)) :=
  ⟨by decide, alloc_msg_buffer_spec (HugeAlloc.mk 1 false 4) 1 (by decide)⟩

/-- C7: for a `MsgBuffer` allocated with original size `S` and any
`new_size ≤ S`, `resize_msg_buffer` succeeds without reallocation: the data
pointer `buf` is unchanged and the data size becomes `new_size`. The
`max_data_size = S` hypothesis is exactly what `alloc_msg_buffer` with
argument `S` establishes (claim C8's theorem). -/
theorem resize_msg_buffer_no_realloc (m : MsgBuffer) (S new_size : Nat)
    (hS : m.max_data_size = S) (hn : new_size ≤ S) :
    (resize_msg_buffer m new_size).buf = m.buf ∧
    (resize_msg_buffer m new_size).data_size = new_size ∧
    (resize_msg_buffer m new_size).max_data_size = S := by
  unfold resize_msg_buffer
  rw [if_pos (hS ▸ hn)]
  exact ⟨rfl, rfl, hS⟩

/-- Witness for C7: the 32-byte ping buffer of `ping_req_handler` resized
to `kPingMsgSize = 32` and a 128-byte buffer resized to 64. -/
theorem resize_msg_buffer_no_realloc_witness :
    ((MsgBuffer.mk 9 128 128).max_data_size = 128 ∧ 64 ≤ 128) ∧
    ((resize_msg_buffer (MsgBuffer.mk 9 128 128) 64).buf =
       (MsgBuffer.mk 9 128 128).buf ∧
     (resize_msg_buffer (MsgBuffer.mk 9 128 128) 64).data_size = 64 ∧
     (resize_msg_buffer (MsgBuffer.mk 9 128 128) 64).max_data_size = 128) :=
  ⟨⟨rfl, by decide⟩,
   resize_msg_buffer_no_realloc (MsgBuffer.mk 9 128 128) 128 64 rfl (by decide)⟩

/-! ## The request window: enqueue_request slot selection (C3) -/

/-- Slot protocol states (spec §3, `kIdle`/`kInProgress`/`kAwaitingResp`). -/
inductive SlotState
  | kIdle
  | kInProgress
  | kAwaitingResp
  deriving Repr, DecidableEq

/-- Modelled from the spec: one request-window slot — the engine's session
sources are absent. Buffers and the continuation are identified by handles
(naturals). -/
structure Slot where
  state : SlotState
  req_num : Nat
  req_type : Nat
  req_buf : Nat
  resp_buf : Nat
  cont : Nat
  tag : Nat
  deriving Repr, DecidableEq

/-- Modelled from the spec: the client-side request window of a session,
with the monotonic next request number. -/
structure Session where
  slots : List Slot
  next_req_num : Nat
  deriving Repr, DecidableEq

/-- Index of the lowest-indexed `kIdle` slot, if any. -/
def findIdle : List Slot → Option Nat
  | [] => none
  | sl :: rest =>
    if sl.state = SlotState.kIdle then some 0
    else (findIdle rest).map (· + 1)

/-- Modelled from the spec (§4.3 request path, §6 datapath API):
`enqueue_request(session, req_type, req_buf, resp_buf, continuation, tag)` —
the caller supplies the response buffer at enqueue time; the engine selects
the lowest-indexed `kIdle` slot, assigns it the next monotonic request
number, records the caller's arguments in the slot, and moves the slot to
`kInProgress`. -/
def enqueue_request (s : Session)
    (req_type req_buf resp_buf cont tag : Nat) : Option (Nat × Session) :=
  match findIdle s.slots with
  | none => none
  | some i =>
    some (i,
      { slots := s.slots.set i
          ⟨SlotState.kInProgress, s.next_req_num, req_type, req_buf,
           resp_buf, cont, tag⟩
        next_req_num := s.next_req_num + 1 })

lemma findIdle_lowest (slots : List Slot) (i : Nat)
    (h : findIdle slots = some i) :
    (∃ sl, slots[i]? = some sl ∧ sl.state = SlotState.kIdle) ∧
    ∀ j, j < i → ∀ sl, slots[j]? = some sl → sl.state ≠ SlotState.kIdle := by
  induction slots generalizing i with
  | nil => simp [findIdle] at h
  | cons a rest ih =>
    by_cases ha : a.state = SlotState.kIdle
    · simp only [findIdle, if_pos ha, Option.some.injEq] at h
      subst h
      exact ⟨⟨a, by simp, ha⟩, fun j hj => absurd hj (Nat.not_lt_zero j)⟩
    · simp only [findIdle, if_neg ha, Option.map_eq_some'] at h
      obtain ⟨i', hi', rfl⟩ := h
      obtain ⟨⟨sl, hsl, hslst⟩, hmin⟩ := ih i' hi'
      refine ⟨⟨sl, by simpa using hsl, hslst⟩, ?_⟩
      intro j hj sl' hsl'
      cases j with
      | zero =>
        simp only [List.getElem?_cons_zero, Option.some.injEq] at hsl'
        exact hsl' ▸ ha
      | succ j' =>
        exact hmin j' (Nat.lt_of_succ_lt_succ hj) sl' (by simpa using hsl')

lemma findIdle_lt_length (slots : List Slot) (i : Nat)
    (h : findIdle slots = some i) : i < slots.length := by
  obtain ⟨⟨sl, hsl, _⟩, _⟩ := findIdle_lowest slots i h
  exact List.getElem?_eq_some_iff.mp hsl |>.1

/-- C3: when `enqueue_request(session, req_type, req_buf, resp_buf,
continuation, tag)` succeeds with slot index `i`: slot `i` was the
lowest-indexed `kIdle` slot; the slot now holds the next monotonic request
number, the caller-supplied response buffer (recorded at enqueue time) and
the other arguments, and is in `kInProgress`; and the session's request
counter advanced by one. -/
theorem enqueue_request_spec (s s2 : Session)
    (rt rb pb cf tg i : Nat)
    (h : enqueue_request s rt rb pb cf tg = some (i, s2)) :
    (∃ sl, s.slots[i]? = some sl ∧ sl.state = SlotState.kIdle) ∧
    (∀ j, j < i → ∀ sl, s.slots[j]? = some sl →
      sl.state ≠ SlotState.kIdle) ∧
    s2.slots[i]? =
      some ⟨SlotState.kInProgress, s.next_req_num, rt, rb, pb, cf, tg⟩ ∧
    s2.next_req_num = s.next_req_num + 1 := by
  unfold enqueue_request at h
  cases hf : findIdle s.slots with
  | none => rw [hf] at h; exact absurd h (by simp)
  | some i' =>
    rw [hf] at h
    simp only [Option.some.injEq, Prod.mk.injEq] at h
    obtain ⟨rfl, rfl⟩ := h
    obtain ⟨hidle, hmin⟩ := findIdle_lowest s.slots i' hf
    refine ⟨hidle, hmin, ?_, rfl⟩
    rw [List.getElem?_set_self]
    exact findIdle_lt_length s.slots i' hf

/-- Witness for C3: a two-slot window whose slot 0 is busy — the engine
picks slot 1, stamps request number 5, and advances the counter to 6. -/
theorem enqueue_request_spec_witness :
    enqueue_request
        (Session.mk
          [⟨SlotState.kInProgress, 4, 0, 0, 0, 0, 0⟩,
           ⟨SlotState.kIdle, 0, 0, 0, 0, 0, 0⟩] 5) 11 21 22 23 24 =
      some (1, Session.mk
          [⟨SlotState.kInProgress, 4, 0, 0, 0, 0, 0⟩,
           ⟨SlotState.kInProgress, 5, 11, 21, 22, 23, 24⟩] 6) ∧
    ((∃ sl,
        (Session.mk
          [⟨SlotState.kInProgress, 4, 0, 0, 0, 0, 0⟩,
           ⟨SlotState.kIdle, 0, 0, 0, 0, 0, 0⟩] 5).slots[1]? = some sl ∧
        sl.state = SlotState.kIdle) ∧
     (∀ j, j < 1 → ∀ sl,
        (Session.mk
          [⟨SlotState.kInProgress, 4, 0, 0, 0, 0, 0⟩,
           ⟨SlotState.kIdle, 0, 0, 0, 0, 0, 0⟩] 5).slots[j]? = some sl →
        sl.state ≠ SlotState.kIdle) ∧
     (Session.mk
          [⟨SlotState.kInProgress, 4, 0, 0, 0, 0, 0⟩,
           ⟨SlotState.kInProgress, 5, 11, 21, 22, 23, 24⟩] 6).slots[1]? =
        some ⟨SlotState.kInProgress, 5, 11, 21, 22, 23, 24⟩ ∧
     (Session.mk
          [⟨SlotState.kInProgress, 4, 0, 0, 0, 0, 0⟩,
           ⟨SlotState.kInProgress, 5, 11, 21, 22, 23, 24⟩] 6).next_req_num =
        5 + 1) :=
  ⟨by decide,
   enqueue_request_spec _ _ 11 21 22 23 24 1 (by decide)⟩

/-! ## Response delivery, buffer borrowing and release_response (C4) -/

/-- The calls the source continuations make into the engine or other
libraries (embedded from `requestvote.h` and the nested-RPC test). -/
inductive AppCall
  | raft_recv_requestvote_response
  | free_msg_buffer (b : Nat)
  | release_response
  | client_request_helper
  deriving Repr, DecidableEq

/-- Call sequence of `requestvote_cont` (embedded from `requestvote.h`,
lines 89–118): on a successful RPC (`resp_data_size > 0`) it feeds the
response to Raft; either way it frees both of its MsgBuffers and then calls
`release_response`. -/
def requestvote_cont_calls (resp_data_size req_buf resp_buf : Nat) :
    List AppCall :=
  (if 0 < resp_data_size then [AppCall.raft_recv_requestvote_response]
   else []) ++
  [AppCall.free_msg_buffer req_buf, AppCall.free_msg_buffer resp_buf,
   AppCall.release_response]

/-- Modelled from the spec (§6 datapath API, §3 lifecycles): who holds the
response `MsgBuffer` around continuation time. -/
inductive RespOwner
  | engineHeld
  | appBorrowed
  | releasedBack
  deriving Repr, DecidableEq

/-- Modelled from the spec: effect of one application call on the borrow
state — `release_response(resp_handle)` is the datapath operation that
returns the borrowed response buffer to the engine; no other application
call does. -/
def respOwnerStep (o : RespOwner) : AppCall → RespOwner
  | AppCall.release_response => RespOwner.releasedBack
  | _ => o

/-- Borrow state after the application runs a sequence of calls. -/
def respOwnerRun (o : RespOwner) (calls : List AppCall) : RespOwner :=
  calls.foldl respOwnerStep o

/-- Modelled from the spec (§4.3 step 6): full receipt of slot `i`'s
response returns the slot to `kIdle` and fires its continuation (the
returned flag). -/
def complete_response (s : Session) (i : Nat) : Session × Bool :=
  match s.slots[i]? with
  | some sl =>
    if sl.state = SlotState.kAwaitingResp then
      ({ s with
          slots := s.slots.set i { sl with state := SlotState.kIdle } }, true)
    else (s, false)
  | none => (s, false)

/-- C4 counterexample: a continuation that returns without further action
leaves the response buffer borrowed — it is not released merely by
returning — and the source continuation `requestvote_cont` does perform the
further action `release_response`. -/
theorem release_needs_app_action_cex :
    respOwnerRun RespOwner.appBorrowed [] ≠ RespOwner.releasedBack ∧
    AppCall.release_response ∈ requestvote_cont_calls 0 1 2 := by
  exact ⟨by decide, by decide⟩

/-- C4 (amended): on full response receipt the slot transitions to `kIdle`
and the continuation fires; the response buffer is borrowed by the
application for the duration of the continuation and is returned to the
engine by the application calling `release_response` — which the source
continuation `requestvote_cont` does before returning, on the success and
on the failure path alike. -/
theorem response_receipt_idle_and_release (s : Session) (i : Nat) (sl : Slot)
    (hsl : s.slots[i]? = some sl)
    (hst : sl.state = SlotState.kAwaitingResp)
    (n rb pb : Nat) :
    (complete_response s i).1.slots[i]? =
      some { sl with state := SlotState.kIdle } ∧
    (complete_response s i).2 = true ∧
    respOwnerRun RespOwner.appBorrowed (requestvote_cont_calls n rb pb) =
      RespOwner.releasedBack := by
  have hlt : i < s.slots.length := List.getElem?_eq_some_iff.mp hsl |>.1
  have hred : complete_response s i =
      ({ s with slots := s.slots.set i { sl with state := SlotState.kIdle } },
       true) := by
    unfold complete_response
    rw [hsl]
    simp [hst]
  rw [hred]
  refine ⟨?_, rfl, ?_⟩
  · show (s.slots.set i { sl with state := SlotState.kIdle })[i]? =
      some { sl with state := SlotState.kIdle }
    rw [List.getElem?_set_self]
    exact hlt
  · by_cases hn : 0 < n <;>
      simp [requestvote_cont_calls, respOwnerRun, respOwnerStep, hn]

/-- Witness for C4 (amended): a one-slot session awaiting its response, and
`requestvote_cont` on the failure path (`resp_data_size = 0`). -/
theorem response_receipt_idle_and_release_witness :
    ((Session.mk [⟨SlotState.kAwaitingResp, 3, 0, 0, 0, 0, 0⟩] 4).slots[0]? =
       some ⟨SlotState.kAwaitingResp, 3, 0, 0, 0, 0, 0⟩ ∧
     (Slot.mk SlotState.kAwaitingResp 3 0 0 0 0 0).state =
       SlotState.kAwaitingResp) ∧
    ((complete_response
        (Session.mk [⟨SlotState.kAwaitingResp, 3, 0, 0, 0, 0, 0⟩] 4)
        0).1.slots[0]? =
       some ⟨SlotState.kIdle, 3, 0, 0, 0, 0, 0⟩ ∧
     (complete_response
        (Session.mk [⟨SlotState.kAwaitingResp, 3, 0, 0, 0, 0, 0⟩] 4)
        0).2 = true ∧
     respOwnerRun RespOwner.appBorrowed (requestvote_cont_calls 0 1 2) =
       RespOwner.releasedBack) :=
  ⟨⟨by decide, by decide⟩,
   response_receipt_idle_and_release
     (Session.mk [⟨SlotState.kAwaitingResp, 3, 0, 0, 0, 0, 0⟩] 4) 0
     ⟨SlotState.kAwaitingResp, 3, 0, 0, 0, 0, 0⟩ (by decide) (by decide)
     0 1 2⟩

/-! ## Continuations run on the issuing event-loop thread (C5) -/

/-- An issued request, as recorded by `PrimaryReqInfo` in the nested-RPC
test: the session it was sent on and the eRPC thread ID (`get_etid`)
observed at `enqueue_request` time. -/
structure IssuedReq where
  sess : Nat
  etid_at_issue : Nat
  deriving Repr, DecidableEq

/-- Modelled from the spec (§6 datapath API): every datapath call, in
particular `enqueue_request`, runs on the event-loop thread of the `Rpc`
instance that owns the session, so the thread ID recorded at issue time is
the session owner's. `owner` maps each session number to the eRPC thread ID
of its owning `Rpc`. -/
def IssuedOnOwner (owner : Nat → Nat) (r : IssuedReq) : Prop :=
  r.etid_at_issue = owner r.sess

/-- Modelled from the spec (§4.5 event loop, §5 ordering guarantees): a
completed response is polled and its continuation invoked by the event loop
of the `Rpc` owning the session, whatever order packets arrive in; the
continuation therefore observes the owner's thread ID. -/
def contEtid (owner : Nat → Nat) (r : IssuedReq) : Nat := owner r.sess

/-- C5: for every interleaving of packet arrivals — any completion order
`sched` of the issued requests — the eRPC thread ID observed inside each
continuation equals the thread ID observed when that request was issued. -/
theorem continuation_on_issuing_thread (owner : Nat → Nat)
    (reqs sched : List IssuedReq) (hperm : sched.Perm reqs)
    (hvalid : ∀ r ∈ reqs, IssuedOnOwner owner r) :
    ∀ r ∈ sched, contEtid owner r = r.etid_at_issue := by
  intro r hr
  exact (hvalid r (hperm.mem_iff.mp hr)).symm

/-- Witness for C5: two requests on sessions 0 and 1 owned by threads 2 and
3, completed in reversed order. -/
theorem continuation_on_issuing_thread_witness :
    ([IssuedReq.mk 1 3, IssuedReq.mk 0 2].Perm
       [IssuedReq.mk 0 2, IssuedReq.mk 1 3] ∧
     ∀ r ∈ [IssuedReq.mk 0 2, IssuedReq.mk 1 3],
       IssuedOnOwner (fun s => s + 2) r) ∧
    ∀ r ∈ [IssuedReq.mk 1 3, IssuedReq.mk 0 2],
      contEtid (fun s => s + 2) r = r.etid_at_issue :=
  ⟨⟨List.Perm.swap _ _ _, by simp [IssuedOnOwner]⟩,
   continuation_on_issuing_thread (fun s => s + 2)
     [IssuedReq.mk 0 2, IssuedReq.mk 1 3] [IssuedReq.mk 1 3, IssuedReq.mk 0 2]
     (List.Perm.swap _ _ _) (by simp [IssuedOnOwner])⟩

/-! ## Background handlers (C6) -/

/-- `ReqFuncType`: a handler's registered execution mode (the test registers
`kForeground` or `kBackground` through `ReqFuncRegInfo`). -/
inductive ReqFuncType
  | kForeground
  | kBackground
  deriving Repr, DecidableEq

/-- Modelled from the spec: where code runs — an `Rpc`'s event-loop thread,
or a background worker of the Nexus pool. -/
inductive ExecCtx
  | eventLoop (etid : Nat)
  | bgWorker (i : Nat)
  deriving Repr, DecidableEq

/-- Modelled from the spec: `in_background()` — whether the calling code is
not on the event-loop thread. -/
def in_background : ExecCtx → Bool
  | ExecCtx.eventLoop _ => false
  | ExecCtx.bgWorker _ => true

/-- Modelled from the spec (§4.6): the event loop invokes a foreground
handler inline on its own thread and hands a background handler's request
to a worker of the Nexus pool. -/
def dispatch_handler (mode : ReqFuncType) (etid worker : Nat) : ExecCtx :=
  match mode with
  | ReqFuncType.kForeground => ExecCtx.eventLoop etid
  | ReqFuncType.kBackground => ExecCtx.bgWorker worker

/-- Modelled from the spec (§4.6, §5): responses posted by workers travel
back through the SPSC queue to the owning event loop, which runs the
continuation — continuations never run on a worker. -/
def contCtx (owner : Nat → Nat) (r : IssuedReq) : ExecCtx :=
  ExecCtx.eventLoop (owner r.sess)

/-- The 16-request trace of the background-handler scenario: 16 enqueues,
each later completed. -/
def trSixteen : List ReqEvent :=
  (List.range 16).map ReqEvent.enq ++ (List.range 16).map ReqEvent.complete

/-- C6: a handler registered `kBackground` never runs on the event-loop
thread (`in_background()` is true inside it) and a `kForeground` handler
always does (`in_background()` false); the continuation of a request served
by a background handler still runs on the issuing client's event-loop
thread; and in the 16-request scenario every request completes: each of the
16 request numbers fires exactly one normal continuation and none stays
outstanding. -/
theorem background_handler_spec (etid worker : Nat) (owner : Nat → Nat)
    (r : IssuedReq) (hr : IssuedOnOwner owner r) :
    in_background (dispatch_handler ReqFuncType.kBackground etid worker) =
      true ∧
    in_background (dispatch_handler ReqFuncType.kForeground etid worker) =
      false ∧
    contCtx owner r = ExecCtx.eventLoop r.etid_at_issue ∧
    in_background (contCtx owner r) = false ∧
    (∀ q ∈ List.range 16, normalFires q trSixteen = 1) ∧
    finalOut [] trSixteen = [] := by
  refine ⟨rfl, rfl, ?_, rfl, by decide, by decide⟩
  rw [contCtx, hr]

/-- Witness for C6: session 5 owned by thread 3. -/
theorem background_handler_spec_witness :
    IssuedOnOwner (fun _ => 3) (IssuedReq.mk 5 3) ∧
    (in_background (dispatch_handler ReqFuncType.kBackground 3 0) = true ∧
     in_background (dispatch_handler ReqFuncType.kForeground 3 0) = false ∧
     contCtx (fun _ => 3) (IssuedReq.mk 5 3) = ExecCtx.eventLoop 3 ∧
     in_background (contCtx (fun _ => 3) (IssuedReq.mk 5 3)) = false ∧
     (∀ q ∈ List.range 16, normalFires q trSixteen = 1) ∧
     finalOut [] trSixteen = []) :=
  ⟨rfl, background_handler_spec 3 0 (fun _ => 3) (IssuedReq.mk 5 3) rfl⟩

/-! ## Continuation-with-failure: the zero-size response (C9) -/

/-- Modelled from the spec (§7 `kSessionReset`) and the failure convention
of `requestvote_cont`: what the engine delivers to a continuation — the
server's full response, or a failure (for example a session reset). -/
inductive RpcOutcome
  | success (server_resp_size : Nat)
  | failure
  deriving Repr, DecidableEq

/-- Modelled from the spec: the data size the continuation finds in the
response MsgBuffer — the server's response size on success, `0` on a
continuation-with-failure. -/
def delivered_resp_size : RpcOutcome → Nat
  | RpcOutcome.success n => n
  | RpcOutcome.failure => 0

/-- The success test of `requestvote_cont` (`requestvote.h` line 94):
`resp_msgbuf.get_data_size() > 0`. -/
def requestvote_cont_is_success (resp_data_size : Nat) : Bool :=
  if 0 < resp_data_size then true else false

/-- C9: the continuation fires on failure as well (one reset-error firing
for a request outstanding at `destroy_session`); failure is signalled by a
response data size of `0`; and — as long as server handlers deliver
non-empty responses, as every handler in the sources does — a completed RPC
delivers a positive data size, so `requestvote_cont`'s size test
discriminates exactly. -/
theorem failure_is_zero_size (o : RpcOutcome)
    (hpos : ∀ m, o = RpcOutcome.success m → 0 < m) :
    delivered_resp_size RpcOutcome.failure = 0 ∧
    (0 < delivered_resp_size o ↔ o ≠ RpcOutcome.failure) ∧
    (requestvote_cont_is_success (delivered_resp_size o) = true ↔
      o ≠ RpcOutcome.failure) ∧
    resetFires 0 [] [ReqEvent.enq 0, ReqEvent.reset] = 1 := by
  refine ⟨rfl, ?_, ?_, by decide⟩
  · cases o with
    | success m =>
      have hm := hpos m rfl
      simp [delivered_resp_size, hm]
    | failure => simp [delivered_resp_size]
  · cases o with
    | success m =>
      have hm := hpos m rfl
      simp [delivered_resp_size, requestvote_cont_is_success, hm]
    | failure => simp [delivered_resp_size, requestvote_cont_is_success]

/-- Witness for C9 at a successful 8-byte response and implicitly at the
failure outcome (the hypothesis is vacuous there). -/
theorem failure_is_zero_size_witness :
    (∀ m, RpcOutcome.success 8 = RpcOutcome.success m → 0 < m) ∧
    (delivered_resp_size RpcOutcome.failure = 0 ∧
     (0 < delivered_resp_size (RpcOutcome.success 8) ↔
       RpcOutcome.success 8 ≠ RpcOutcome.failure) ∧
     (requestvote_cont_is_success
        (delivered_resp_size (RpcOutcome.success 8)) = true ↔
       RpcOutcome.success 8 ≠ RpcOutcome.failure) ∧
     resetFires 0 [] [ReqEvent.enq 0, ReqEvent.reset] = 1) :=
  ⟨by intro m hm; cases hm; decide,
   failure_is_zero_size (RpcOutcome.success 8)
     (by intro m hm; cases hm; decide)⟩

end ERpcVerify
